import Mathlib

/-!
Shallow embedding of the argument-parsing core of the `argparse` Go
repository: the argument model and action table (src/unnamed/part_000,
lines 87-581 -- the copy whose `createValue` and `Choices` the engine
uses), the result mapping (src/namespace.go, first copy), the registry
(src/parser.go) and the parsing engine (src/parsing.go).

Go `interface{}` values are modelled by the inductive `Value` (with
`vNil` standing for the nil interface), the `Namespace` map by an
association list with map semantics, and the closed action table by the
inductive `ActionKind` dispatched through `runAction`.  Errors are
identified by the `errors.Errorf` site that raises them (`ParseError`).
The main loop is written with explicit fuel so that it stays a
structural recursion; fuel sufficiency is proved separately.
-/

namespace Argparse

/-- Go `interface{}` values as the core produces them: strings, ints,
booleans, `[]interface{}` slices, and the nil interface. -/
inductive Value where
  | vNil : Value
  | vStr : String → Value
  | vInt : Int → Value
  | vBool : Bool → Value
  | vList : List Value → Value
deriving Repr

/-- Structural boolean equality on `Value` (needed because the nested
`List Value` blocks the automatic `DecidableEq` derivation). -/
def Value.beq : Value → Value → Bool
  | .vNil, .vNil => true
  | .vStr a, .vStr b => a == b
  | .vInt a, .vInt b => a == b
  | .vBool a, .vBool b => a == b
  | .vList a, .vList b => beqList a b
  | _, _ => false
where
  beqList : List Value → List Value → Bool
  | [], [] => true
  | x :: xs, y :: ys => Value.beq x y && beqList xs ys
  | _, _ => false

theorem Value.beq_iff : ∀ a b : Value, Value.beq a b = true ↔ a = b := by
  have main : ∀ a : Value, (∀ b, Value.beq a b = true ↔ a = b) := by
    intro a
    induction a using Value.rec
      (motive_2 := fun l => ∀ m, Value.beq.beqList l m = true ↔ l = m) with
    | vNil => intro b; cases b <;> simp [Value.beq]
    | vStr s => intro b; cases b <;> simp [Value.beq]
    | vInt i => intro b; cases b <;> simp [Value.beq]
    | vBool x => intro b; cases b <;> simp [Value.beq]
    | vList l ih =>
      intro b; cases b <;> simp [Value.beq]
      exact ih _
    | nil => rename_i m; cases m <;> simp [Value.beq.beqList]
    | cons x xs ihx ihxs =>
      rename_i m
      cases m with
      | nil => simp [Value.beq.beqList]
      | cons y ys => simp [Value.beq.beqList, ihx y, ihxs ys]
  exact main

instance : DecidableEq Value := fun a b =>
  decidable_of_iff (Value.beq a b = true) (Value.beq_iff a b)

/-- The sentinel arities (src/unnamed/part_000, lines 169-179):
`OneOrMore = -1 - iota`. -/
def OneOrMore : Int := -1

/-- Sentinel: zero or more values. -/
def ZeroOrMore : Int := -2

/-- Sentinel: zero or one value. -/
def ZeroOrOne : Int := -3

/-- Each `errors.Errorf` site of the live core, identified by kind. -/
inductive ParseError where
  /-- parse: "unexpected argument: %q" (src/parsing.go:37). -/
  | unexpectedArgument (tok : String)
  /-- getArgs: "not enough values for argument %q" (src/parsing.go:123). -/
  | notEnoughValues (dest : String)
  /-- getArgs: "expected at least one value for argument %q" (src/parsing.go:145). -/
  | expectedAtLeastOne (dest : String)
  /-- handle: "argument %q expected 0 values, not %d" (src/parsing.go:73). -/
  | expectedZeroValues (dest : String) (n : Nat)
  /-- handle: "expected one or more arguments but got zero." (src/parsing.go:95). -/
  | expectedOneOrMore
  /-- handle: "%v failed" wrapping a type-converter failure (src/parsing.go:84). -/
  | typeFailed (msg : String)
  /-- createValue: "invalid choice %q for %v" (src/unnamed/part_000:574). -/
  | invalidChoice (tok : String) (dest : String)
  /-- Store: "argument %q already defined with value %v." (src/unnamed/part_000:403). -/
  | alreadySet (dest : String)
  /-- StoreTrue/StoreFalse: "no values expected for argument %q but got %v"
  (src/unnamed/part_000:417,435). -/
  | wrongValueCount (dest : String) (n : Nat)
  /-- StoreTrue: errors.NewUnexpectedType on a non-bool value (src/unnamed/part_000:422). -/
  | unexpectedType (dest : String)
  /-- parse resolution: "missing required argument %q" (src/parsing.go:52). -/
  | missingRequired (dest : String)
  /-- Marker for the embedding's bounded loop running out of fuel; proved
  unreachable for the fuel bound `parseFuel` (see `C9_parse_terminates`). -/
  | noFuel
deriving Repr, DecidableEq

/-- The closed action table (src/unnamed/part_000, lines 383-443): the
`actions` registry holds exactly these four behaviours. -/
inductive ActionKind where
  | store
  | storeTrue
  | storeFalse
  | append
deriving Repr, DecidableEq

/-- `ValueParser func(v string) (interface{}, error)` -/
def ValueParser := String → Except String Value

/-- `Argument` (src/unnamed/part_000, lines 97-144), restricted to the
fields the parsing engine reads.  `action` defaults to store and `type`
to the string pass-through, mirroring the defaulting in `AddArgument`
(src/parser.go:102-107); `vNil` stands for a nil `interface{}` field. -/
structure Argument where
  action : ActionKind := .store
  const : Value := .vNil
  default : Value := .vNil
  dest : String := ""
  nargs : Int := 0
  optionStrings : List String := []
  required : Bool := false
  type : ValueParser := fun s => .ok (.vStr s)
  choices : Option (List (String × Value)) := none

/-- The registry: `Optionals` (a map from every option string to its
argument, here the declaration list, looked up through the option
strings) and `Positionals` (src/parser.go:16-23).  Each named argument
appears once in `optionals`; `AddArgument` guarantees no option string
is claimed by two arguments, so lookup order is immaterial. -/
structure ArgumentParser where
  optionals : List Argument := []
  positionals : List Argument := []

/-- `p.Optionals[tok]` (map lookup over every registered option string). -/
def findOptional (p : ArgumentParser) (tok : String) : Option Argument :=
  p.optionals.find? (fun a => a.optionStrings.contains tok)

/-- `Namespace map[string]interface{}` (src/namespace.go:10). -/
abbrev Namespace := List (String × Value)

/-- Map read: `ns[a.Dest]`. -/
def nsGet : Namespace → String → Option Value
  | [], _ => none
  | (k', v) :: t, k => if k' = k then some v else nsGet t k

/-- Map write: `ns[a.Dest] = v` (replaces the binding if present). -/
def nsSet : Namespace → String → Value → Namespace
  | [], k, v => [(k, v)]
  | (k', v') :: t, k, v =>
    if k' = k then (k, v) :: t else (k', v') :: nsSet t k v

/-- `Namespace.Append` (src/namespace.go:13-25): fetch the existing
value (wrapping a non-slice value into a one-element slice), extend it
with `vs`, and store the result. -/
def nsAppend (ns : Namespace) (a : Argument) (vs : List Value) : Namespace :=
  let values : List Value :=
    match nsGet ns a.dest with
    | none => []
    | some (.vList l) => l
    | some v => [v]
  nsSet ns a.dest (.vList (values ++ vs))

/-- `getArgValueForNS` (src/unnamed/part_000:445-450): a lone value when
the arity is exactly one, the whole slice otherwise. -/
def getArgValueForNS (a : Argument) (vs : List Value) : Value :=
  match vs with
  | [v] => if a.nargs = 1 then v else .vList vs
  | _ => .vList vs

/-- The action dispatch (src/unnamed/part_000, lines 383-443): Append,
Store, StoreTrue and StoreFalse exactly as the live copy writes them. -/
def runAction : ActionKind → Argument → Namespace → List Value →
    Except ParseError Namespace
  | .append, a, ns, vs => .ok (nsAppend ns a [getArgValueForNS a vs])
  | .store, a, ns, vs =>
    match nsGet ns a.dest with
    | some _ => .error (.alreadySet a.dest)
    | none => .ok (nsSet ns a.dest (getArgValueForNS a vs))
  | .storeTrue, a, ns, vs =>
    match vs with
    | [.vBool b] => .ok (nsSet ns a.dest (.vBool b))
    | [_] => .error (.unexpectedType a.dest)
    | _ => .error (.wrongValueCount a.dest vs.length)
  | .storeFalse, a, ns, vs =>
    match vs with
    | [] => .ok (nsSet ns a.dest (.vBool false))
    | _ => .error (.wrongValueCount a.dest vs.length)

/-- `Argument.createValue` (src/unnamed/part_000:570-580) with the
converter failure already wrapped the way `handle` wraps it. -/
def createValue (a : Argument) (arg : String) : Except ParseError Value :=
  match a.choices with
  | some cs =>
    match cs.find? (fun c => c.1 == arg) with
    | some c => .ok c.2
    | none => .error (.invalidChoice arg a.dest)
  | none =>
    match a.type arg with
    | .ok v => .ok v
    | .error e => .error (.typeFailed e)

/-- `getArgs` (src/parsing.go:120-161): how many raw tokens the selected
argument consumes, returning them with the advanced cursor. -/
def getArgs (p : ArgumentParser) (args : List String) (argi : Nat)
    (a : Argument) : Except ParseError (List String × Nat) :=
  let r := args.drop argi
  if a.nargs > (r.length : Int) then .error (.notEnoughValues a.dest)
  else if a.nargs = 0 then .ok ([], argi)
  else if a.nargs = ZeroOrOne then
    match r with
    | [] => .ok ([], argi)
    | tok :: _ =>
      if (findOptional p tok).isSome then .ok ([], argi)
      else .ok ([tok], argi + 1)
  else if a.nargs = ZeroOrMore ∧ r = [] then .ok ([], argi)
  else if a.nargs = ZeroOrMore ∨ a.nargs = OneOrMore then
    match r with
    | [] => .error (.expectedAtLeastOne a.dest)
    | _ =>
      let t := r.takeWhile (fun tok => (findOptional p tok).isNone)
      .ok (t, argi + t.length)
  else
    -- default: a.nargs ≥ 1 here (the Nargs option rejects values below
    -- ZeroOrOne, so no smaller value is constructible)
    .ok (r.take a.nargs.toNat, argi + a.nargs.toNat)

/-- Convert the consumed tokens left to right, stopping at the first
failure (the loop of src/parsing.go:107-115). -/
def convertAll (a : Argument) : List String → Except ParseError (List Value)
  | [] => .ok []
  | s :: t =>
    match createValue a s with
    | .error e => .error e
    | .ok v =>
      match convertAll a t with
      | .error e => .error e
      | .ok vs => .ok (v :: vs)

/-- Pair an action result with the cursor `handle` leaves behind (the
engine keeps the cursor in mutable state; here it is returned). -/
def finishAt (argi' : Nat) : Except ParseError Namespace →
    Except ParseError (Namespace × Nat)
  | .error e => .error e
  | .ok ns' => .ok (ns', argi')

/-- `handle` (src/parsing.go:65-118): fetch the values, then drive the
arity switch (with its fall-throughs) into the action dispatch. -/
def handle (p : ArgumentParser) (args : List String) (argi : Nat)
    (a : Argument) (ns : Namespace) : Except ParseError (Namespace × Nat) :=
  match getArgs p args argi a with
  | .error e => .error e
  | .ok (vals, argi') =>
    if a.nargs = 0 then
      if vals.length ≠ 0 then .error (.expectedZeroValues a.dest vals.length)
      else finishAt argi' (runAction a.action a ns [a.const])
    else if a.nargs = ZeroOrOne then
      match vals with
      | [] => finishAt argi' (runAction a.action a ns [a.const])
      | v :: _ =>
        match createValue a v with
        | .error e => .error e
        | .ok x => finishAt argi' (runAction a.action a ns [x])
    else if a.nargs = ZeroOrMore ∧ vals = [] then
      finishAt argi' (runAction a.action a ns [a.const])
    else if a.nargs = ZeroOrMore ∨ a.nargs = OneOrMore then
      match vals with
      | [] => .error .expectedOneOrMore
      | [v] =>
        match createValue a v with
        | .error e => .error e
        | .ok x => finishAt argi' (runAction a.action a ns [x])
      | _ =>
        match convertAll a vals with
        | .error e => .error e
        | .ok xs => finishAt argi' (runAction a.action a ns xs)
    else
      match convertAll a vals with
      | .error e => .error e
      | .ok xs => finishAt argi' (runAction a.action a ns xs)

/-- The token loop of `parse` (src/parsing.go:29-47), with explicit fuel
(`none` = fuel ran out; `parseFuel` is proved sufficient). -/
def parseLoop (p : ArgumentParser) (args : List String) :
    Nat → Nat → Nat → Namespace → Option (Except ParseError Namespace)
  | 0, _, _, _ => none
  | fuel + 1, argi, posi, ns =>
    match args[argi]? with
    | none => some (.ok ns)
    | some tok =>
      match findOptional p tok with
      | some a =>
        match handle p args (argi + 1) a ns with
        | .error e => some (.error e)
        | .ok (ns', argi') => parseLoop p args fuel argi' posi ns'
      | none =>
        match p.positionals[posi]? with
        | none => some (.error (.unexpectedArgument tok))
        | some a =>
          match handle p args argi a ns with
          | .error e => some (.error e)
          | .ok (ns', argi') => parseLoop p args fuel argi' (posi + 1) ns'

/-- One step of the resolution pass (body of the loop at
src/parsing.go:49-61). -/
def resolveStep (ns : Namespace) (a : Argument) : Except ParseError Namespace :=
  match nsGet ns a.dest with
  | some _ => .ok ns
  | none =>
    if a.required then .error (.missingRequired a.dest)
    else if a.default ≠ Value.vNil then runAction a.action a ns [a.default]
    else .ok ns

/-- The resolution pass over `allArgs` (src/parsing.go:48-61). -/
def resolve (ns : Namespace) : List Argument → Except ParseError Namespace
  | [] => .ok ns
  | a :: rest =>
    match resolveStep ns a with
    | .error e => .error e
    | .ok ns' => resolve ns' rest

/-- A fuel bound sufficient for the token loop (each iteration advances
the cursor or the positional index). -/
def parseFuel (p : ArgumentParser) (args : List String) : Nat :=
  args.length + p.positionals.length + 1

/-- `parse` (src/parsing.go:29-63), parameterised by the order in which
the resolution pass visits the named arguments: the Go code ranges over
the `Optionals` map (`getOptionals(false)`, src/parser.go:187-204),
whose iteration order is unspecified, then the positionals. -/
def parseO (p : ArgumentParser) (args : List String)
    (order : List Argument) : Except ParseError Namespace :=
  match parseLoop p args (parseFuel p args) 0 0 [] with
  | none => .error .noFuel
  | some (.error e) => .error e
  | some (.ok ns) => resolve ns (order ++ p.positionals)

/-- `parse` with the canonical (declaration) order of named arguments. -/
def parse (p : ArgumentParser) (args : List String) :
    Except ParseError Namespace :=
  parseO p args p.optionals

/-- The regexp class `[0-9A-Za-z]` (src/unnamed/part_000:520). -/
def isAlnumChar (c : Char) : Bool :=
  (('0' ≤ c ∧ c ≤ '9') ∨ ('A' ≤ c ∧ c ≤ 'Z') ∨ ('a' ≤ c ∧ c ≤ 'z'))

/-- `strings.Join(alphaNumRegexp.FindAllString(op, -1), "")`: joining all
maximal alphanumeric runs of a string is exactly dropping every
non-alphanumeric character. -/
def alphaNumOnly (s : String) : String :=
  String.mk (s.data.filter isAlnumChar)

/-- The loop body of the derivation: keep the longer projection
(strictly longer wins, so the first maximum is kept). -/
def destStep (dest op : String) : String :=
  let full := alphaNumOnly op
  if full.length > dest.length then full else dest

/-- The default-destination derivation of `AddArgument`
(src/parser.go:108-118): over the option strings, keep the longest
joined alphanumeric projection. -/
def deriveDest (ops : List String) : String :=
  ops.foldl destStep ""

/-- The `Dest` defaulting of `AddArgument` (src/parser.go:108-118). -/
def addArgumentDest (dest : String) (ops : List String) : String :=
  if dest = "" then deriveDest ops else dest

/-- Modelled from the spec for comparison with `deriveDest` (C3): the
maximal alphanumeric runs of a string, in order. -/
def alnumRunsAux : List Char → List Char → List String
  | [], acc => if acc.isEmpty then [] else [String.mk acc.reverse]
  | c :: t, acc =>
    if isAlnumChar c then alnumRunsAux t (c :: acc)
    else if acc.isEmpty then alnumRunsAux t []
    else String.mk acc.reverse :: alnumRunsAux t []

/-- Modelled from the spec (C3): "the longest run of non-delimiter
alphanumeric characters across an argument's matchStrings,
case-preserved" (first maximum wins). -/
def specLongestRun (ops : List String) : String :=
  (ops.flatMap (fun op => alnumRunsAux op.data [])).foldl
    (fun best run => if run.length > best.length then run else best) ""

/-! ## Concrete registries used by the claims' instances

Each mirrors the post-`AddArgument` state of a declaration: the
`Action` option fills `Const`/`Default`/`Nargs` for store_true and
store_false and forces `Nargs ≥ 1` for store (src/unnamed/part_000,
lines 318-346); `Type` defaults to the string pass-through. -/

/-- `--flag`, store action with zero-or-more arity (`Nargs(ZeroOrMore)`
applied after `Action("store")`). -/
def flagArg : Argument :=
  { action := .store, dest := "flag", nargs := ZeroOrMore,
    optionStrings := ["--flag"] }

/-- `--other`, a store_true flag. -/
def otherArg : Argument :=
  { action := .storeTrue, const := .vBool true, default := .vBool false,
    dest := "other", nargs := 0, optionStrings := ["--other"] }

/-- Registry for the tie-break instance of C1. -/
def pC1 : ArgumentParser := { optionals := [flagArg, otherArg] }

/-- `-v` and `--verbose`, a store_true flag. -/
def verboseArg : Argument :=
  { action := .storeTrue, const := .vBool true, default := .vBool false,
    dest := "verbose", nargs := 0, optionStrings := ["-v", "--verbose"] }

/-- `-q` and `--quiet`, a store_false flag (`Action("store_false")` sets
`Default = true`, `Const = false`, `Nargs = 0`). -/
def quietArg : Argument :=
  { action := .storeFalse, const := .vBool false, default := .vBool true,
    dest := "quiet", nargs := 0, optionStrings := ["-q", "--quiet"] }

/-- Registry with one store_true flag. -/
def pTrueReg : ArgumentParser := { optionals := [verboseArg] }

/-- Registry with one store_false flag. -/
def pQuiet : ArgumentParser := { optionals := [quietArg] }

/-- `-c` and `--count`, a store argument of arity one. -/
def countArg : Argument :=
  { action := .store, dest := "count", nargs := 1,
    optionStrings := ["-c", "--count"] }

/-- Registry for the duplicate-guard instance of C4. -/
def pCount : ArgumentParser := { optionals := [countArg] }

/-- `--name`, a required store argument. -/
def reqArg : Argument :=
  { action := .store, dest := "name", nargs := 1,
    optionStrings := ["--name"], required := true }

/-- Registry for the required-enforcement instance of C5. -/
def pReq : ArgumentParser := { optionals := [reqArg] }

/-- `--greet`, an optional store argument with default "x". -/
def defArg : Argument :=
  { action := .store, default := .vStr "x", dest := "greet", nargs := 1,
    optionStrings := ["--greet"] }

/-- Registry for the default-injection instance of C6. -/
def pDef : ArgumentParser := { optionals := [defArg] }

/-- `--tag`, an append argument of arity one. -/
def tagArg : Argument :=
  { action := .append, dest := "tag", nargs := 1, optionStrings := ["--tag"] }

/-- Registry for the flat-accumulation instance of C7. -/
def pTag : ArgumentParser := { optionals := [tagArg] }

/-- `--pt`, an append argument of arity two (two values per occurrence). -/
def ptArg : Argument :=
  { action := .append, dest := "pt", nargs := 2, optionStrings := ["--pt"] }

/-- Registry for the nested-accumulation counterexample of C7. -/
def pPt : ArgumentParser := { optionals := [ptArg] }

/-- `--a`, store with default "x", sharing key `k` with `dupYArg`. -/
def dupXArg : Argument :=
  { action := .store, default := .vStr "x", dest := "k", nargs := 1,
    optionStrings := ["--a"] }

/-- `--b`, store with default "y", sharing key `k` with `dupXArg`. -/
def dupYArg : Argument :=
  { action := .store, default := .vStr "y", dest := "k", nargs := 1,
    optionStrings := ["--b"] }

/-- Registry whose two named arguments share one destination key (for
the C8 counterexample). -/
def pDup : ArgumentParser := { optionals := [dupXArg, dupYArg] }

/-- `--z`, store with zero-or-one arity and constant "C". -/
def zooArg : Argument :=
  { action := .store, const := .vStr "C", dest := "z", nargs := ZeroOrOne,
    optionStrings := ["--z"] }

/-- `--w`, a store_true flag next to `zooArg`. -/
def wArg : Argument :=
  { action := .storeTrue, const := .vBool true, default := .vBool false,
    dest := "w", nargs := 0, optionStrings := ["--w"] }

/-- Registry for the zero-consumption instance of C10. -/
def pZoo : ArgumentParser := { optionals := [zooArg, wArg] }

/-! ## Map lemmas -/

theorem nsGet_nsSet (ns : Namespace) (k : String) (v : Value) (k' : String) :
    nsGet (nsSet ns k v) k' = if k = k' then some v else nsGet ns k' := by
  induction ns with
  | nil => simp [nsGet, nsSet]
  | cons h t ih =>
    obtain ⟨k₀, v₀⟩ := h
    by_cases h1 : k₀ = k
    · subst h1
      by_cases h2 : k₀ = k' <;> simp [nsGet, nsSet, h2]
    · by_cases h2 : k₀ = k'
      · subst h2
        have h3 : ¬k = k₀ := fun h => h1 h.symm
        simp [nsGet, nsSet, h1, h3]
      · simp [nsGet, nsSet, h1, h2, ih]

end Argparse

namespace Argparse

theorem getArgs_variadic (p : ArgumentParser) (args : List String) (argi : Nat)
    (a : Argument) (h : a.nargs = ZeroOrMore ∨ a.nargs = OneOrMore)
    (h1 : a.nargs = OneOrMore → args.drop argi ≠ []) :
    getArgs p args argi a =
      .ok ((args.drop argi).takeWhile (fun tok => (findOptional p tok).isNone),
        argi + ((args.drop argi).takeWhile (fun tok => (findOptional p tok).isNone)).length) := by
  have hg : ¬ (a.nargs > ((args.drop argi).length : Int)) := by
    rcases h with h | h <;> rw [h] <;> simp [ZeroOrMore, OneOrMore] <;> omega
  rcases h with h | h
  · rcases hr : args.drop argi with _ | ⟨x, xs⟩
    · simp [getArgs, hr, h, ZeroOrMore, ZeroOrOne]
    · rw [getArgs]
      simp only [hr] at hg ⊢
      rw [if_neg hg, if_neg (by rw [h]; simp [ZeroOrMore]),
        if_neg (by rw [h]; simp [ZeroOrMore, ZeroOrOne]),
        if_neg (by rw [h]; simp [ZeroOrMore]),
        if_pos (Or.inl h)]
  · rcases hr : args.drop argi with _ | ⟨x, xs⟩
    · exact absurd hr (h1 h)
    · rw [getArgs]
      simp only [hr] at hg ⊢
      rw [if_neg hg, if_neg (by rw [h]; simp [OneOrMore]),
        if_neg (by rw [h]; simp [OneOrMore, ZeroOrOne]),
        if_neg (by rw [h]; simp [OneOrMore, ZeroOrMore]),
        if_pos (Or.inr h)]

theorem getArgs_cursor_le (p : ArgumentParser) (args : List String) (argi : Nat)
    (a : Argument) (vals : List String) (argi' : Nat)
    (h : getArgs p args argi a = .ok (vals, argi')) : argi ≤ argi' := by
  simp only [getArgs] at h
  repeat' split at h
  all_goals simp_all
  all_goals omega

theorem finishAt_ok (n : Nat) (r : Except ParseError Namespace)
    (ns' : Namespace) (m : Nat) (h : finishAt n r = .ok (ns', m)) :
    m = n ∧ r = .ok ns' := by
  cases r with
  | error e => exact absurd h (by simp [finishAt])
  | ok x =>
    simp only [finishAt] at h
    injection h with h'
    injection h' with h1 h2
    exact ⟨h2.symm, by rw [h1]⟩

theorem handle_cursor_le (p : ArgumentParser) (args : List String) (argi : Nat)
    (a : Argument) (ns : Namespace) (ns' : Namespace) (argi' : Nat)
    (h : handle p args argi a ns = .ok (ns', argi')) : argi ≤ argi' := by
  rw [handle] at h
  rcases hg : getArgs p args argi a with e | ⟨vals, argi₀⟩ <;> rw [hg] at h
  · exact absurd h (by simp)
  · dsimp only at h
    have hle := getArgs_cursor_le p args argi a vals argi₀ hg
    repeat' split at h
    all_goals first
      | (obtain ⟨hA, hB⟩ := finishAt_ok _ _ _ _ h; omega)
      | simp_all

theorem parseLoop_isSome (p : ArgumentParser) (args : List String) :
    ∀ (fuel argi posi : Nat) (ns : Namespace),
      args.length - argi + (p.positionals.length - posi) < fuel →
      (parseLoop p args fuel argi posi ns).isSome = true := by
  intro fuel
  induction fuel with
  | zero => intro argi posi ns h; omega
  | succ fuel ih =>
    intro argi posi ns h
    rw [parseLoop]
    rcases ht : args[argi]? with _ | tok
    · simp
    · dsimp only
      have hlt : argi < args.length := by
        by_contra hge
        rw [List.getElem?_eq_none (by omega)] at ht
        exact Option.noConfusion ht
      rcases hf : findOptional p tok with _ | a
      · dsimp only
        rcases hp : p.positionals[posi]? with _ | a
        · simp
        · dsimp only
          have hplt : posi < p.positionals.length := by
            by_contra hge
            rw [List.getElem?_eq_none (by omega)] at hp
            exact Option.noConfusion hp
          rcases hh : handle p args argi a ns with e | ⟨ns', argi'⟩
          · simp
          · dsimp only
            have hc := handle_cursor_le p args argi a ns ns' argi' hh
            exact ih argi' (posi + 1) ns' (by omega)
      · dsimp only
        rcases hh : handle p args (argi + 1) a ns with e | ⟨ns', argi'⟩
        · simp
        · dsimp only
          have hc := handle_cursor_le p args (argi + 1) a ns ns' argi' hh
          exact ih argi' posi ns' (by omega)

theorem runAction_presence (act : ActionKind) (a : Argument) (ns ns' : Namespace)
    (vs : List Value) (k : String) (h : runAction act a ns vs = .ok ns')
    (hk : (nsGet ns k).isSome = true) : (nsGet ns' k).isSome = true := by
  cases act <;> simp only [runAction] at h <;> repeat' split at h
  all_goals first
    | (injection h with h'; subst h';
       simp only [nsAppend, nsGet_nsSet]; split <;> simp_all)
    | simp_all

theorem resolveStep_presence (ns ns' : Namespace) (a : Argument) (k : String)
    (h : resolveStep ns a = .ok ns') (hk : (nsGet ns k).isSome = true) :
    (nsGet ns' k).isSome = true := by
  rw [resolveStep] at h
  repeat' split at h
  all_goals first
    | (injection h with h'; subst h'; exact hk)
    | exact runAction_presence _ _ _ _ _ _ h hk
    | simp_all

theorem resolve_presence (ns ns' : Namespace) (l : List Argument) (k : String)
    (h : resolve ns l = .ok ns') (hk : (nsGet ns k).isSome = true) :
    (nsGet ns' k).isSome = true := by
  induction l generalizing ns with
  | nil => rw [resolve] at h; injection h with h'; subst h'; exact hk
  | cons b t ih =>
    rw [resolve] at h
    rcases hs : resolveStep ns b with e | ns₁ <;> rw [hs] at h <;> dsimp only at h
    · exact absurd h (by simp)
    · exact ih ns₁ h (resolveStep_presence ns ns₁ b k hs hk)

theorem resolve_required (ns ns' : Namespace) (l : List Argument)
    (h : resolve ns l = .ok ns') (a : Argument) (ha : a ∈ l)
    (hr : a.required = true) : (nsGet ns' a.dest).isSome = true := by
  induction l generalizing ns with
  | nil => cases ha
  | cons b t ih =>
    rw [resolve] at h
    rcases hs : resolveStep ns b with e | ns₁ <;> rw [hs] at h <;> dsimp only at h
    · exact absurd h (by simp)
    · rcases List.mem_cons.mp ha with hab | hat
      · subst hab
        have h1 : (nsGet ns₁ a.dest).isSome = true := by
          rw [resolveStep] at hs
          rcases hg : nsGet ns a.dest with _ | v <;> rw [hg] at hs
          · rw [hr] at hs; simp at hs
          · injection hs with h'; subst h'; simp [hg]
        exact resolve_presence _ _ _ _ h h1
      · exact ih ns₁ h hat

/-! ## Order-insensitivity of the resolution pass (C8) -/

/-- Two namespaces are value-equal as maps. -/
def nsEquiv (ns1 ns2 : Namespace) : Prop :=
  ∀ k, nsGet ns1 k = nsGet ns2 k

theorem nsEquiv_refl (ns : Namespace) : nsEquiv ns ns := fun _ => rfl

theorem nsEquiv_trans {a b c : Namespace} (h1 : nsEquiv a b)
    (h2 : nsEquiv b c) : nsEquiv a c := fun k => (h1 k).trans (h2 k)

theorem nsEquiv_nsSet {ns1 ns2 : Namespace} (h : nsEquiv ns1 ns2)
    (k : String) (v : Value) : nsEquiv (nsSet ns1 k v) (nsSet ns2 k v) := by
  intro k'
  rw [nsGet_nsSet, nsGet_nsSet]
  split <;> simp [h k']

/-- Parse outcomes agree: both fail, or both succeed with value-equal
mappings. -/
def equivOutcome (r1 r2 : Except ParseError Namespace) : Prop :=
  (∃ e1 e2, r1 = .error e1 ∧ r2 = .error e2) ∨
    (∃ n1 n2, r1 = .ok n1 ∧ r2 = .ok n2 ∧ nsEquiv n1 n2)

theorem equivOutcome_refl (r : Except ParseError Namespace) :
    equivOutcome r r := by
  cases r with
  | error e => exact Or.inl ⟨e, e, rfl, rfl⟩
  | ok ns => exact Or.inr ⟨ns, ns, rfl, rfl, nsEquiv_refl ns⟩

theorem equivOutcome_trans {a b c : Except ParseError Namespace}
    (h1 : equivOutcome a b) (h2 : equivOutcome b c) : equivOutcome a c := by
  rcases h1 with ⟨e1, e2, ha, hb⟩ | ⟨n1, n2, ha, hb, he⟩
  · rcases h2 with ⟨e3, e4, hb', hc⟩ | ⟨n3, n4, hb', hc, he'⟩
    · exact Or.inl ⟨e1, e4, ha, hc⟩
    · rw [hb] at hb'; exact absurd hb' (by simp)
  · rcases h2 with ⟨e3, e4, hb', hc⟩ | ⟨n3, n4, hb', hc, he'⟩
    · rw [hb] at hb'; exact absurd hb' (by simp)
    · rw [hb] at hb'
      injection hb' with h
      exact Or.inr ⟨n1, n4, ha, hc, nsEquiv_trans he (h ▸ he')⟩

/-- What `resolveStep` decides, as a function of the current binding of
the argument's own key only: an error, or an optional write. -/
def resolveStepSpec (a : Argument) (cur : Option Value) :
    Except ParseError (Option Value) :=
  match cur with
  | some _ => .ok none
  | none =>
    if a.required then .error (.missingRequired a.dest)
    else if a.default ≠ Value.vNil then
      match a.action with
      | .append => .ok (some (.vList [getArgValueForNS a [a.default]]))
      | .store => .ok (some (getArgValueForNS a [a.default]))
      | .storeTrue =>
        match a.default with
        | .vBool b => .ok (some (.vBool b))
        | _ => .error (.unexpectedType a.dest)
      | .storeFalse => .error (.wrongValueCount a.dest 1)
    else .ok none

/-- Perform an optional write. -/
def maybeSet (ns : Namespace) (k : String) : Option Value → Namespace
  | none => ns
  | some v => nsSet ns k v

/-- `resolveStep` is exactly `resolveStepSpec` applied to the binding of
the argument's own key, followed by the optional write. -/
theorem resolveStep_spec (ns : Namespace) (a : Argument) :
    resolveStep ns a =
      match resolveStepSpec a (nsGet ns a.dest) with
      | .error e => .error e
      | .ok w => .ok (maybeSet ns a.dest w) := by
  rw [resolveStep]
  rcases hg : nsGet ns a.dest with _ | v
  · simp only [resolveStepSpec]
    by_cases hreq : a.required
    · simp [hreq]
    · by_cases hdef : a.default = Value.vNil
      · simp [hreq, hdef, maybeSet]
      · simp only [hreq, hdef, ne_eq, not_false_iff, if_false, if_true,
          Bool.false_eq_true]
        cases hact : a.action
        · -- store
          simp [runAction, hg, maybeSet]
        · -- storeTrue
          cases hd : a.default <;> simp [runAction, maybeSet]
        · -- storeFalse
          simp [runAction, maybeSet]
        · -- append
          simp [runAction, nsAppend, hg, maybeSet]
  · simp only [resolveStepSpec]
    simp [maybeSet]

theorem nsGet_maybeSet_other (ns : Namespace) (k : String) (w : Option Value)
    (k' : String) (h : k ≠ k') : nsGet (maybeSet ns k w) k' = nsGet ns k' := by
  cases w with
  | none => rfl
  | some v => rw [maybeSet, nsGet_nsSet, if_neg h]

theorem nsEquiv_maybeSet_comm (ns : Namespace) (k1 : String) (w1 : Option Value)
    (k2 : String) (w2 : Option Value) (h : k1 ≠ k2) :
    nsEquiv (maybeSet (maybeSet ns k1 w1) k2 w2)
      (maybeSet (maybeSet ns k2 w2) k1 w1) := by
  intro k
  cases w1 <;> cases w2 <;> simp only [maybeSet]
  rw [nsGet_nsSet, nsGet_nsSet, nsGet_nsSet, nsGet_nsSet]
  split_ifs <;> simp_all

theorem resolve_congr {ns1 ns2 : Namespace} (h : nsEquiv ns1 ns2) :
    ∀ l, equivOutcome (resolve ns1 l) (resolve ns2 l) := by
  intro l
  induction l generalizing ns1 ns2 with
  | nil => exact Or.inr ⟨ns1, ns2, rfl, rfl, h⟩
  | cons a t ih =>
    simp only [resolve]
    rw [resolveStep_spec ns1 a, resolveStep_spec ns2 a, h a.dest]
    rcases hs : resolveStepSpec a (nsGet ns2 a.dest) with e | w <;> dsimp only
    · exact Or.inl ⟨e, e, rfl, rfl⟩
    · cases w with
      | none => exact ih h
      | some v => exact ih (nsEquiv_nsSet h a.dest v)

theorem resolve_perm {l1 l2 : List Argument} (hp : l1.Perm l2) :
    (l1.map (fun a => a.dest)).Nodup →
      ∀ ns, equivOutcome (resolve ns l1) (resolve ns l2) := by
  induction hp with
  | nil => intro _ ns; exact equivOutcome_refl _
  | cons x hperm ih =>
    intro hnd ns
    rw [List.map_cons, List.nodup_cons] at hnd
    simp only [resolve]
    rcases hs : resolveStep ns x with e | ns₁ <;> dsimp only
    · exact Or.inl ⟨e, e, rfl, rfl⟩
    · exact ih hnd.2 ns₁
  | swap x y l =>
    intro hnd ns
    rw [List.map_cons, List.map_cons, List.nodup_cons] at hnd
    have hyx : y.dest ≠ x.dest :=
      fun hq => hnd.1 (List.mem_cons.mpr (Or.inl hq))
    have hxy : x.dest ≠ y.dest := fun hq => hyx hq.symm
    simp only [resolve]
    rw [resolveStep_spec ns y, resolveStep_spec ns x]
    rcases hy : resolveStepSpec y (nsGet ns y.dest) with ey | wy <;>
      rcases hx : resolveStepSpec x (nsGet ns x.dest) with ex | wx <;>
        dsimp only
    · exact Or.inl ⟨ey, ex, rfl, rfl⟩
    · -- y fails, x writes: the x-first order still fails at y
      rw [resolveStep_spec (maybeSet ns x.dest wx) y,
        nsGet_maybeSet_other ns x.dest wx y.dest hxy, hy]
      exact Or.inl ⟨ey, ey, rfl, rfl⟩
    · -- y writes, x fails: the y-first order still fails at x
      rw [resolveStep_spec (maybeSet ns y.dest wy) x,
        nsGet_maybeSet_other ns y.dest wy x.dest hyx, hx]
      exact Or.inl ⟨ex, ex, rfl, rfl⟩
    · -- both write; the writes commute
      rw [resolveStep_spec (maybeSet ns y.dest wy) x,
        nsGet_maybeSet_other ns y.dest wy x.dest hyx, hx,
        resolveStep_spec (maybeSet ns x.dest wx) y,
        nsGet_maybeSet_other ns x.dest wx y.dest hxy, hy]
      dsimp only
      exact resolve_congr (nsEquiv_maybeSet_comm ns y.dest wy x.dest wx hyx) l
  | trans h1 h2 ih1 ih2 =>
    intro hnd ns
    have hnd2 := ((h1.map (fun a => a.dest)).nodup_iff).mp hnd
    exact equivOutcome_trans (ih1 hnd ns) (ih2 hnd2 ns)

/-! ## Destination-key derivation (C3) -/

theorem foldl_destStep (ops : List String) (acc : String) :
    (ops.foldl destStep acc = acc ∨
      ∃ op ∈ ops, ops.foldl destStep acc = alphaNumOnly op) ∧
    acc.length ≤ (ops.foldl destStep acc).length ∧
    ∀ op ∈ ops, (alphaNumOnly op).length ≤ (ops.foldl destStep acc).length := by
  induction ops generalizing acc with
  | nil => simp
  | cons o t ih =>
    rw [List.foldl_cons]
    obtain ⟨h1, h2, h3⟩ := ih (destStep acc o)
    have hstep : destStep acc o = alphaNumOnly o ∨ destStep acc o = acc := by
      simp only [destStep]; split <;> simp
    have hlen : acc.length ≤ (destStep acc o).length ∧
        (alphaNumOnly o).length ≤ (destStep acc o).length := by
      simp only [destStep]; split <;> omega
    refine ⟨?_, by omega, ?_⟩
    · rcases h1 with h1 | ⟨op, hmem, hop⟩
      · rcases hstep with hs | hs
        · exact Or.inr ⟨o, List.mem_cons_self o t, h1.trans hs⟩
        · exact Or.inl (h1.trans hs)
      · exact Or.inr ⟨op, List.mem_cons_of_mem o hmem, hop⟩
    · intro op hmem
      rcases List.mem_cons.mp hmem with hop | hmem'
      · subst hop; omega
      · exact h3 op hmem'

/-! ## Claim theorems -/

/-- C1: once a zero-or-more / one-or-more argument is selected, the
engine consumes exactly the maximal run of consecutive tokens at the
cursor none of which matches a named argument; in particular, with
`--flag` (zero-or-more) and `--other` declared, parsing
["--flag", "a", "b", "--other"] stores ["a", "b"] under `flag` and
then dispatches `--other` itself, never consuming "--other" as a
value of `--flag`. -/
theorem C1_variadic_maximal_run :
    (∀ (p : ArgumentParser) (args : List String) (argi : Nat) (a : Argument),
      (a.nargs = ZeroOrMore ∨ a.nargs = OneOrMore) →
      (a.nargs = OneOrMore → args.drop argi ≠ []) →
      getArgs p args argi a =
        .ok ((args.drop argi).takeWhile (fun tok => (findOptional p tok).isNone),
          argi + ((args.drop argi).takeWhile
            (fun tok => (findOptional p tok).isNone)).length)) ∧
    parse pC1 ["--flag", "a", "b", "--other"] =
      .ok [("flag", Value.vList [Value.vStr "a", Value.vStr "b"]),
        ("other", Value.vBool true)] :=
  ⟨getArgs_variadic, rfl⟩

/-- C2: a present store_true flag writes its constant `true` (the engine
passes the action the single synthetic constant and StoreTrue accepts
it), but the live StoreFalse rejects any non-empty value list, so a
present store_false flag fails with the wrong-value-count error instead
of writing `false` -- the code contradicts the engine's zero-arity
contract and its own StoreTrue. -/
theorem C2_store_bool_flags :
    parse pTrueReg ["--verbose"] = .ok [("verbose", Value.vBool true)] ∧
    parse pQuiet ["--quiet"] = .error (.wrongValueCount "quiet" 1) ∧
    runAction .storeFalse quietArg [] [quietArg.const] =
      .error (.wrongValueCount "quiet" 1) :=
  ⟨rfl, rfl, rfl⟩

/-- C3 (amended): an unset key defaults not to the longest alphanumeric
run but to the longest alphanumeric *projection* of a matchString: every
non-alphanumeric character is dropped (all runs joined) and the longest
such projection across the matchStrings wins (first maximum kept). -/
theorem C3_derived_key :
    (∀ ops : List String, addArgumentDest "" ops = deriveDest ops) ∧
    (∀ ops : List String,
      (deriveDest ops = "" ∧ ∀ op ∈ ops, alphaNumOnly op = "") ∨
      (∃ op ∈ ops, deriveDest ops = alphaNumOnly op ∧
        ∀ op' ∈ ops, (alphaNumOnly op').length ≤ (deriveDest ops).length)) := by
  refine ⟨fun ops => rfl, fun ops => ?_⟩
  obtain ⟨h1, _, h3⟩ := foldl_destStep ops ""
  rw [show ops.foldl destStep "" = deriveDest ops from rfl] at h1 h3
  rcases h1 with h1 | ⟨op, hmem, hop⟩
  · left
    refine ⟨h1, fun op hmem => ?_⟩
    have hle := h3 op hmem
    rw [h1] at hle
    have hz : (alphaNumOnly op).length = 0 := by
      simpa using hle
    have hfil : (op.data.filter isAlnumChar) = [] :=
      List.length_eq_zero.mp hz
    rw [alphaNumOnly, hfil]
  · exact Or.inr ⟨op, hmem, hop, fun op' hmem' => h3 op' hmem'⟩

/-- C3 counterexample: for the single matchString "--no-color" the code
derives "nocolor" (all alphanumeric runs joined), not the longest
alphanumeric run "color" the claim describes. -/
theorem C3_counterexample :
    addArgumentDest "" ["--no-color"] = "nocolor" ∧
    specLongestRun ["--no-color"] = "color" ∧
    ("nocolor" : String) ≠ "color" :=
  ⟨rfl, rfl, by decide⟩

/-- C4: a store action invoked while its key is already bound fails with
AlreadySet (and returns no mapping at all, fail-fast); in particular
["--count", "1", "--count", "2"] fails with AlreadySet on the second
occurrence. -/
theorem C4_store_duplicate_guard :
    (∀ (a : Argument) (ns : Namespace) (vs : List Value) (v : Value),
      nsGet ns a.dest = some v →
      runAction .store a ns vs = .error (.alreadySet a.dest)) ∧
    parse pCount ["--count", "1", "--count", "2"] =
      .error (.alreadySet "count") := by
  refine ⟨?_, rfl⟩
  intro a ns vs v h
  simp only [runAction, h]

/-- C5: when the resolution pass reaches a required argument whose key
is absent from the result mapping, it fails at once with
MissingRequired; hence a successful parse binds every required
argument's key, and a registry with one required named argument fails on
the empty token sequence with MissingRequired. -/
theorem C5_required_enforcement :
    (∀ (ns : Namespace) (a : Argument) (rest : List Argument),
      nsGet ns a.dest = none → a.required = true →
      resolve ns (a :: rest) = .error (.missingRequired a.dest)) ∧
    (∀ (p : ArgumentParser) (args : List String) (ns : Namespace),
      parse p args = .ok ns →
      ∀ a ∈ p.optionals ++ p.positionals, a.required = true →
        (nsGet ns a.dest).isSome = true) ∧
    parse pReq [] = .error (.missingRequired "name") := by
  refine ⟨?_, ?_, rfl⟩
  · intro ns a rest h1 h2
    rw [resolve, resolveStep, h1, h2]
    rfl
  · intro p args ns h a ha hr
    rw [parse, parseO] at h
    rcases hl : parseLoop p args (parseFuel p args) 0 0 [] with _ | e | ns0 <;>
      rw [hl] at h <;> dsimp only at h
    · exact absurd h (by simp)
    · exact absurd h (by simp)
    · exact resolve_required ns0 ns _ h a ha hr

/-- C6: the resolution pass invokes an absent, non-required argument's
action with its declared default as a single synthetic value; in
particular an optional argument with default "x" and no tokens yields
the mapping binding its key to "x". -/
theorem C6_default_injection :
    (∀ (ns : Namespace) (a : Argument) (rest : List Argument),
      nsGet ns a.dest = none → a.required = false → a.default ≠ Value.vNil →
      resolve ns (a :: rest) =
        match runAction a.action a ns [a.default] with
        | .error e => .error e
        | .ok ns' => resolve ns' rest) ∧
    parse pDef [] = .ok [("greet", Value.vStr "x")] := by
  refine ⟨?_, rfl⟩
  intro ns a rest h1 h2 h3
  rw [resolve, resolveStep, h1, h2]
  simp [h3]

/-- C7 (amended): each invocation of the append action extends the
sequence under the key by exactly one element -- the lone converted
value when the arity is one and a single value was supplied, otherwise
the whole list of freshly converted values as one nested element -- in
invocation order, regardless of prior presence; one value per
invocation therefore accumulates flat. -/
theorem C7_append_accumulates :
    (∀ (a : Argument) (ns : Namespace) (vs : List Value),
      runAction .append a ns vs =
        .ok (nsAppend ns a [getArgValueForNS a vs])) ∧
    (∀ (ns : Namespace) (a : Argument) (x : Value) (l : List Value),
      nsGet ns a.dest = some (.vList l) →
      nsGet (nsAppend ns a [x]) a.dest = some (.vList (l ++ [x]))) ∧
    (∀ (ns : Namespace) (a : Argument) (x : Value),
      nsGet ns a.dest = none →
      nsGet (nsAppend ns a [x]) a.dest = some (.vList [x])) ∧
    parse pTag ["--tag", "a", "--tag", "b"] =
      .ok [("tag", Value.vList [Value.vStr "a", Value.vStr "b"])] := by
  refine ⟨fun a ns vs => rfl, ?_, ?_, rfl⟩
  · intro ns a x l h
    simp [nsAppend, h, nsGet_nsSet]
  · intro ns a x h
    simp [nsAppend, h, nsGet_nsSet]

/-- C7 counterexample: an append argument of arity two, supplied twice,
accumulates two nested pairs, not the flat four-element sequence the
claim describes. -/
theorem C7_counterexample :
    parse pPt ["--pt", "a", "b", "--pt", "c", "d"] =
      .ok [("pt", Value.vList
        [Value.vList [Value.vStr "a", Value.vStr "b"],
         Value.vList [Value.vStr "c", Value.vStr "d"]])] ∧
    Value.vList [Value.vList [Value.vStr "a", Value.vStr "b"],
        Value.vList [Value.vStr "c", Value.vStr "d"]] ≠
      Value.vList [Value.vStr "a", Value.vStr "b", Value.vStr "c",
        Value.vStr "d"] :=
  ⟨rfl, by decide⟩

/-- C8 (amended): provided all declared arguments carry pairwise
distinct keys, the parse outcome is insensitive to the order in which
the resolution pass visits the named arguments: any two visiting orders
both fail or both succeed with value-equal mappings. -/
theorem C8_order_independent (p : ArgumentParser) (args : List String)
    (o1 o2 : List Argument) (h1 : o1.Perm p.optionals)
    (h2 : o2.Perm p.optionals)
    (hnd : ((p.optionals ++ p.positionals).map (fun a => a.dest)).Nodup) :
    equivOutcome (parseO p args o1) (parseO p args o2) := by
  rw [parseO, parseO]
  rcases hl : parseLoop p args (parseFuel p args) 0 0 [] with _ | e | ns <;>
    dsimp only
  · exact Or.inl ⟨.noFuel, .noFuel, rfl, rfl⟩
  · exact Or.inl ⟨e, e, rfl, rfl⟩
  · have hp12 : (o1 ++ p.positionals).Perm (o2 ++ p.positionals) :=
      (h1.trans h2.symm).append_right p.positionals
    have hpc : (o1 ++ p.positionals).Perm (p.optionals ++ p.positionals) :=
      h1.append_right p.positionals
    have hnd1 : ((o1 ++ p.positionals).map (fun a => a.dest)).Nodup :=
      ((hpc.map (fun a => a.dest)).nodup_iff).mpr hnd
    exact resolve_perm hp12 hnd1 ns

/-- Witness for C8 at a concrete registry with distinct keys. -/
theorem C8_order_independent_witness :
    equivOutcome (parseO pCount ["--count", "1"] pCount.optionals)
      (parseO pCount ["--count", "1"] pCount.optionals) :=
  C8_order_independent pCount ["--count", "1"] pCount.optionals
    pCount.optionals (List.Perm.refl _) (List.Perm.refl _) (by decide)

/-- C8 counterexample: with two named arguments sharing the key "k"
(defaults "x" and "y"), the two map orders of the resolution pass give
different mappings for the same registry and the same (empty) token
sequence. -/
theorem C8_counterexample :
    parseO pDup [] [dupXArg, dupYArg] = .ok [("k", Value.vStr "x")] ∧
    parseO pDup [] [dupYArg, dupXArg] = .ok [("k", Value.vStr "y")] ∧
    [dupXArg, dupYArg].Perm pDup.optionals ∧
    [dupYArg, dupXArg].Perm pDup.optionals ∧
    ¬nsEquiv [("k", Value.vStr "x")] [("k", Value.vStr "y")] := by
  refine ⟨rfl, rfl, List.Perm.refl _, List.Perm.swap dupXArg dupYArg [], ?_⟩
  intro h
  exact absurd (h "k") (by decide)

/-- C9: the token loop always terminates: it finishes within any fuel
above the cursor-plus-positional measure, and in particular within the
`parseFuel` bound `parse` runs it with (each token is consumed at most
once, the cursor never moves back). -/
theorem C9_parse_terminates :
    (∀ (p : ArgumentParser) (args : List String) (fuel argi posi : Nat)
      (ns : Namespace),
      args.length - argi + (p.positionals.length - posi) < fuel →
      (parseLoop p args fuel argi posi ns).isSome = true) ∧
    (∀ (p : ArgumentParser) (args : List String),
      (parseLoop p args (parseFuel p args) 0 0 []).isSome = true) := by
  refine ⟨fun p args => parseLoop_isSome p args, fun p args => ?_⟩
  exact parseLoop_isSome p args _ 0 0 []
    (by simp only [parseFuel]; omega)

/-- C10: a zero-or-one or zero-or-more argument for which the engine
consumes no value token (no tokens remain, or the next token matches a
named argument) has its action invoked with the one-element list holding
its declared constant. -/
theorem C10_optional_arity_commits_const (p : ArgumentParser)
    (args : List String) (argi : Nat) (a : Argument) (ns : Namespace)
    (hn : a.nargs = ZeroOrOne ∨ a.nargs = ZeroOrMore)
    (hz : args.drop argi = [] ∨ ∃ tok rest, args.drop argi = tok :: rest ∧
      (findOptional p tok).isSome = true) :
    handle p args argi a ns = finishAt argi (runAction a.action a ns [a.const]) := by
  have hg : getArgs p args argi a = .ok ([], argi) := by
    rcases hn with hn | hn
    · rw [getArgs]
      rcases hz with hz | ⟨tok, rest, hz, hopt⟩ <;> rw [hz]
      · simp [hn, ZeroOrOne]
      · simp [hn, ZeroOrOne, hopt]
        omega
    · rw [getArgs]
      rcases hz with hz | ⟨tok, rest, hz, hopt⟩ <;> rw [hz]
      · simp [hn, ZeroOrMore, ZeroOrOne]
      · obtain ⟨v, hv⟩ := Option.isSome_iff_exists.mp hopt
        simp [hn, ZeroOrMore, ZeroOrOne, OneOrMore]
        rw [if_neg (by omega)]
        simp [List.takeWhile_cons, hv]
  rw [handle, hg]
  rcases hn with hn | hn <;> rw [hn]
  · rfl
  · rfl

/-- Witness for C10: `--z` (zero-or-one, constant "C") followed
immediately by the named token `--w` commits the constant. -/
theorem C10_optional_arity_commits_const_witness :
    handle pZoo ["--w"] 0 zooArg [] =
      .ok ([("z", Value.vList [Value.vStr "C"])], 0) := by
  have h := C10_optional_arity_commits_const pZoo ["--w"] 0 zooArg []
    (Or.inl rfl) (Or.inr ⟨"--w", [], rfl, rfl⟩)
  rw [h]
  rfl

end Argparse
